import Mathlib

/-!
Verification of the yum-metadata-parser sqlite cache layer (src/db.c).

The development shallowly embeds the C source: the file-list compaction
codec (`package_files_to_hash`), the cache coherency protocol
(`dbinfo_status`, `yum_db_open`, `yum_db_dbinfo_update`), the schema
declarations with their AFTER DELETE triggers, and the row-write
pipelines.  C strings are modelled as Lean `String`, GLib lists as
`List`, the GLib hash table keyed by directory strings as an association
list in insertion order (one admissible iteration order of the
unordered hash), and sqlite state as explicit structures.  The outcome
of each `sqlite3_step` call is an explicit boolean oracle argument,
since the engine itself is outside the source.
-/

set_option autoImplicit false

namespace YumDB

/-! ## GLib path splitting

`g_path_get_dirname` and `g_path_get_basename` are GLib library calls
(not part of src/); they are modelled here after GLib's documented
behaviour on Unix: basename drops trailing separators and takes the
last component ("." for the empty string, "/" for all-slash strings);
dirname takes everything before the last separator run ("." when no
separator occurs, "/" when only the leading run remains). -/

def g_path_get_basename (p : String) : String :=
  if p.data = [] then "."
  else
    let r := p.data.reverse.dropWhile (fun c => c = '/')
    if r = [] then "/"
    else ⟨(r.takeWhile (fun c => ¬ c = '/')).reverse⟩

def g_path_get_dirname (p : String) : String :=
  if p.data.contains '/' then
    let r := (p.data.reverse.dropWhile (fun c => ¬ c = '/')).dropWhile (fun c => c = '/')
    if r = [] then "/" else ⟨r.reverse⟩
  else "."

example : g_path_get_basename "/a/b.txt" = "b.txt" := by decide
example : g_path_get_dirname "/a/b.txt" = "/a" := by decide
example : g_path_get_dirname "/a" = "/" := by decide
example : g_path_get_basename "/a" = "a" := by decide
example : g_path_get_dirname "a" = "." := by decide
example : g_path_get_basename "/" = "/" := by decide
example : g_path_get_dirname "a//b" = "a" := by decide

/-! ## The file-list compaction codec (src/db.c lines 34-103) -/

/-- A `PackageFile` as used by db.c: a path and a type string
("dir", "file" or "ghost" for well-formed metadata). -/
structure PackageFile where
  name : String
  type : String
deriving Repr, DecidableEq

/-- `EncodedPackageFile` (db.c line 37): the two growable buffers of one
directory group. -/
structure EncodedPackageFile where
  files : String
  types : String
deriving Repr, DecidableEq

/-- `encoded_package_file_new` (db.c line 42): both buffers empty. -/
def encoded_package_file_new : EncodedPackageFile := ⟨"", ""⟩

/-- The strcmp chain of db.c lines 94-99 deciding the single type code
character; any other type string appends nothing. -/
def typeChar (t : String) : Option Char :=
  if t = "dir" then some 'd'
  else if t = "file" then some 'f'
  else if t = "ghost" then some 'g'
  else none

/-- The per-entry buffer update of db.c lines 89-99: a '/' separator is
written only when the filenames buffer is already non-empty, then the
basename; the types buffer gets one code character via `typeChar`
(or, for an unrecognized type string, nothing). -/
def enc_append (enc : EncodedPackageFile) (name : String) (t : String) : EncodedPackageFile :=
  let files := if enc.files.length ≠ 0 then enc.files ++ "/" ++ name else enc.files ++ name
  let types :=
    match typeChar t with
    | some c => enc.types.push c
    | none => enc.types
  ⟨files, types⟩

/-- First entry of the association list modelling `g_hash_table_lookup`. -/
def assocFind : List (String × EncodedPackageFile) → String → Option EncodedPackageFile
  | [], _ => none
  | (k, v) :: rest, d => if k = d then some v else assocFind rest d

/-- Replace the value stored under an existing key (mutation of the
`EncodedPackageFile` found by lookup in the C). -/
def assocReplace : List (String × EncodedPackageFile) → String → EncodedPackageFile →
    List (String × EncodedPackageFile)
  | [], _, _ => []
  | (k, v) :: rest, d, enc => if k = d then (d, enc) :: rest else (k, v) :: assocReplace rest d enc

/-- One iteration of the loop of db.c lines 76-100: split the path,
fetch or create the directory group, append basename and type code. -/
def files_to_hash_step (h : List (String × EncodedPackageFile)) (file : PackageFile) :
    List (String × EncodedPackageFile) :=
  match assocFind h (g_path_get_dirname file.name) with
  | none =>
    h ++ [(g_path_get_dirname file.name,
           enc_append encoded_package_file_new (g_path_get_basename file.name) file.type)]
  | some enc =>
    assocReplace h (g_path_get_dirname file.name)
      (enc_append enc (g_path_get_basename file.name) file.type)

/-- `package_files_to_hash` (db.c line 62): group a package's file list
by directory into the filenames/filetypes buffers. -/
def package_files_to_hash (files : List PackageFile) : List (String × EncodedPackageFile) :=
  files.foldl files_to_hash_step []

example :
    package_files_to_hash
      [⟨"/a/b.txt", "file"⟩, ⟨"/a/c.txt", "file"⟩, ⟨"/a", "dir"⟩] =
      [("/a", ⟨"b.txt/c.txt", "ff"⟩), ("/", ⟨"a", "d"⟩)] := by decide

/-! ## The spec-side decoder: splitting filenames on '/' -/

/-- Split a character list on '/': companion of `String.splitOn "/"`. -/
def splitCharList : List Char → List (List Char)
  | [] => [[]]
  | c :: cs =>
    let r := splitCharList cs
    if c = '/' then [] :: r
    else
      match r with
      | [] => [[c]]
      | x :: xs => (c :: x) :: xs

/-- Split the filenames buffer on the '/' separator. -/
def splitSlash (s : String) : List String :=
  (splitCharList s.data).map (fun l => ⟨l⟩)

/-- Reference join: the filenames buffer an aligned codec run builds. -/
def joinSlash : List String → String
  | [] => ""
  | [n] => n
  | n :: m :: rest => n ++ "/" ++ joinSlash (m :: rest)

example : splitSlash "b.txt/c.txt" = ["b.txt", "c.txt"] := by decide
example : splitSlash "" = [""] := by decide
example : splitSlash "/" = ["", ""] := by decide

/-! ## Cache file model for the coherency protocol (db.c lines 105-267)

A cache file is modelled by: whether the `db_info` table exists, its
rows, which `create_tables` callback has populated the schema
(db.c declares the tables, indexes and trigger of exactly one kind per
file), the data rows of the remaining tables, and whether
`PRAGMA synchronous = 0` has been applied.  The filesystem state
carries file existence and a corruption flag making `sqlite3_open`
fail, the one engine failure the open path handles. -/

/-- Modelled from the spec: `YUM_SQLITE_CACHE_DBVERSION` is the compiled
format-version constant from db.h, which is not under src/; its exact
numeric value is immaterial to every claim. -/
def YUM_SQLITE_CACHE_DBVERSION : Int := 9

/-- One row of the `db_info` table (the Stamp). -/
structure DBInfoRow where
  dbversion : Int
  checksum : String
deriving Repr, DecidableEq

/-- The three `create_tables` callbacks passed to `yum_db_open`
(db.c lines 311, 605, 773). -/
inductive SchemaKind
  | primary
  | filelists
  | other
deriving Repr, DecidableEq

/-- A data row of a dependent table: its owning pkgKey and the
remaining column values. -/
structure Row where
  pkgKey : Int
  payload : List String
deriving Repr, DecidableEq

/-- The persistent content of one cache file. -/
structure CacheFile where
  hasDbinfo : Bool
  db_info : List DBInfoRow
  schema : Option SchemaKind
  tables : List (String × List Row)
  syncOff : Bool
deriving Repr, DecidableEq

/-- The file a fresh `sqlite3_open` creates at an absent path. -/
def emptyCacheFile : CacheFile := ⟨false, [], none, [], false⟩

/-- Filesystem view of the cache path. -/
structure DiskState where
  present : Bool
  corrupt : Bool
  file : CacheFile
deriving Repr, DecidableEq

/-- `DBStatus` (db.c line 114). -/
inductive DBStatus
  | ok
  | versionMismatch
  | checksumMismatch
  | dbError
deriving Repr, DecidableEq

/-- `dbinfo_status` (db.c line 121): prepare fails when `db_info` is
missing and the status stays `DB_STATUS_ERROR`; the same happens when
the table holds no row.  Otherwise only the first row is examined:
version mismatch dominates, then a checksum `strcmp`, else OK. -/
def dbinfo_status (f : CacheFile) (checksum : String) : DBStatus :=
  if f.hasDbinfo then
    match f.db_info with
    | [] => DBStatus.dbError
    | row :: _ =>
      if ¬ row.dbversion = YUM_SQLITE_CACHE_DBVERSION then DBStatus.versionMismatch
      else if ¬ checksum = row.checksum then DBStatus.checksumMismatch
      else DBStatus.ok
  else DBStatus.dbError

/-- `yum_db_create_dbinfo_table` (db.c line 163): `CREATE TABLE db_info`
fails when the table already exists. -/
def yum_db_create_dbinfo_table (f : CacheFile) : CacheFile × Option String :=
  if f.hasDbinfo then (f, some "Can not create db_info table")
  else ({ f with hasDbinfo := true }, none)

/-- `yum_db_create_primary_tables` (db.c line 311): its first statement,
`CREATE TABLE packages`, fails when any schema already populates the
file; otherwise the primary tables, indexes and the `removals`
trigger are declared. -/
def yum_db_create_primary_tables (f : CacheFile) : CacheFile × Option String :=
  match f.schema with
  | some _ => (f, some "Can not create packages table")
  | none => ({ f with schema := some SchemaKind.primary }, none)

/-- `yum_db_create_filelist_tables` (db.c line 605). -/
def yum_db_create_filelist_tables (f : CacheFile) : CacheFile × Option String :=
  match f.schema with
  | some _ => (f, some "Can not create packages table")
  | none => ({ f with schema := some SchemaKind.filelists }, none)

/-- `yum_db_create_other_tables` (db.c line 773). -/
def yum_db_create_other_tables (f : CacheFile) : CacheFile × Option String :=
  match f.schema with
  | some _ => (f, some "Can not create packages table")
  | none => ({ f with schema := some SchemaKind.other }, none)

/-- Dispatch of the `CreateTablesFn` callback argument by kind. -/
def create_tables_fn (kind : SchemaKind) (f : CacheFile) : CacheFile × Option String :=
  match kind with
  | SchemaKind.primary => yum_db_create_primary_tables f
  | SchemaKind.filelists => yum_db_create_filelist_tables f
  | SchemaKind.other => yum_db_create_other_tables f

/-- Result of `yum_db_open`: `current` is the NULL return with no error
(cache up to date), `handle` a writable connection on the given file
content, `failure` the NULL return with `*err` set. -/
inductive OpenResult
  | current
  | handle (f : CacheFile)
  | failure (msg : String)
deriving Repr, DecidableEq

/-- Full outcome of `yum_db_open`: the returned value, the resulting
disk state, and whether the caller-supplied `create_tables` callback
was invoked during the call. -/
structure OpenOutcome where
  result : OpenResult
  disk : DiskState
  createTablesRan : Bool
deriving Repr, DecidableEq

/-- The tail of `yum_db_open` starting at `if (!db)` (db.c line 221):
reopen if needed, `yum_db_create_dbinfo_table`, the `create_tables`
callback, `PRAGMA synchronous = 0`; on any error the handle is closed
and NULL returned with `*err` set. -/
def open_tail (disk : DiskState) (kind : SchemaKind) : OpenOutcome :=
  if disk.present && disk.corrupt then
    ⟨OpenResult.failure "Can not open SQL database", disk, false⟩
  else
    let disk1 : DiskState := if disk.present then disk else ⟨true, false, emptyCacheFile⟩
    match yum_db_create_dbinfo_table disk1.file with
    | (f1, some msg) => ⟨OpenResult.failure msg, ⟨true, false, f1⟩, false⟩
    | (f1, none) =>
      match create_tables_fn kind f1 with
      | (f2, some msg) => ⟨OpenResult.failure msg, ⟨true, false, f2⟩, true⟩
      | (f2, none) =>
        let f3 := { f2 with syncOff := true }
        ⟨OpenResult.handle f3, ⟨true, false, f3⟩, true⟩

/-- `yum_db_open` (db.c line 178).  With the file present and readable:
`DB_STATUS_OK` closes the handle and returns NULL without error;
`DB_STATUS_CHECKSUM_MISMATCH` relaxes syncing, clears the `db_info`
rows and returns the handle; `DB_STATUS_VERSION_MISMATCH` and
`DB_STATUS_ERROR` merely close the handle (the path is NOT unlinked)
before falling through to `open_tail`.  Only a failing first
`sqlite3_open` unlinks the path before the retry. -/
def yum_db_open (disk : DiskState) (checksum : String) (kind : SchemaKind) : OpenOutcome :=
  let db_existed := disk.present
  if disk.present && disk.corrupt then
    open_tail ⟨false, false, emptyCacheFile⟩ kind
  else
    let disk1 : DiskState := if disk.present then disk else ⟨true, false, emptyCacheFile⟩
    if db_existed then
      match dbinfo_status disk1.file checksum with
      | DBStatus.ok => ⟨OpenResult.current, disk1, false⟩
      | DBStatus.checksumMismatch =>
        let f := { disk1.file with db_info := [], syncOff := true }
        ⟨OpenResult.handle f, ⟨true, false, f⟩, false⟩
      | DBStatus.versionMismatch => open_tail disk1 kind
      | DBStatus.dbError => open_tail disk1 kind
    else
      open_tail disk1 kind

/-- `yum_db_dbinfo_update` (db.c line 250): a single INSERT of the
`{YUM_SQLITE_CACHE_DBVERSION, checksum}` row; it fails (setting the
error) only when the `db_info` table is missing.  No DELETE is
issued here. -/
def yum_db_dbinfo_update (f : CacheFile) (checksum : String) : CacheFile × Option String :=
  if f.hasDbinfo then
    ({ f with db_info := f.db_info ++ [⟨YUM_SQLITE_CACHE_DBVERSION, checksum⟩] }, none)
  else (f, some "Can not update dbinfo table")

/-! ## Schema triggers (db.c lines 420-437, 655-668, 823-835)

Each `create_tables` callback declares one AFTER DELETE ON packages
trigger whose body is a sequence of
`DELETE FROM t WHERE pkgKey = old.pkgKey` statements.  The trigger
declarations below transcribe those DDL strings; executing a DELETE on
`packages` with its FOR EACH ROW trigger is standard engine behaviour
(sqlite is outside src/) and is modelled generically. -/

/-- An AFTER DELETE ON packages trigger: its name and the tables its
body deletes from, by the deleted row's pkgKey. -/
structure TriggerDecl where
  name : String
  cascadeTargets : List String
deriving Repr, DecidableEq

/-- The `removals` trigger of `yum_db_create_primary_tables`. -/
def primary_trigger : TriggerDecl :=
  ⟨"removals", ["files", "requires", "provides", "conflicts", "obsoletes"]⟩

/-- The `remove_filelist` trigger of `yum_db_create_filelist_tables`. -/
def filelist_trigger : TriggerDecl := ⟨"remove_filelist", ["filelist"]⟩

/-- The `remove_changelogs` trigger of `yum_db_create_other_tables`. -/
def other_trigger : TriggerDecl := ⟨"remove_changelogs", ["changelog"]⟩

/-- The trigger each schema kind declares. -/
def schema_trigger : SchemaKind → TriggerDecl
  | SchemaKind.primary => primary_trigger
  | SchemaKind.filelists => filelist_trigger
  | SchemaKind.other => other_trigger

/-- The dependent (non-packages) tables each kind's CREATE TABLE
statements declare, in declaration order. -/
def dependent_tables : SchemaKind → List String
  | SchemaKind.primary => ["files", "requires", "provides", "conflicts", "obsoletes"]
  | SchemaKind.filelists => ["filelist"]
  | SchemaKind.other => ["changelog"]

/-- A package row: its pkgKey and the remaining column values. -/
structure PackageRow where
  pkgKey : Int
  payload : List String
deriving Repr, DecidableEq

/-- The data content of one schema'd cache file: the packages table and
the dependent tables, by name. -/
structure SchemaDB where
  packages : List PackageRow
  tables : List (String × List Row)
deriving Repr, DecidableEq

/-- The rows of a named table (first binding wins, empty when absent). -/
def tableRows : List (String × List Row) → String → List Row
  | [], _ => []
  | (n, rows) :: rest, t => if n = t then rows else tableRows rest t

/-- `DELETE FROM t WHERE pkgKey = k` over the table map. -/
def delete_rows : List (String × List Row) → String → Int → List (String × List Row)
  | [], _, _ => []
  | (n, rows) :: rest, t, k =>
    (n, if n = t then rows.filter (fun r => ¬ r.pkgKey = k) else rows) :: delete_rows rest t k

/-- Run one trigger body for one deleted packages row with key
`oldKey`: the body's DELETE statements in order. -/
def run_trigger (trg : TriggerDecl) (oldKey : Int) (ts : List (String × List Row)) :
    List (String × List Row) :=
  trg.cascadeTargets.foldl (fun ts t => delete_rows ts t oldKey) ts

/-- `DELETE FROM packages WHERE pkgKey = k` on a file of the given
kind: every matching packages row is removed and the kind's AFTER
DELETE trigger body runs once per removed row. -/
def delete_package (kind : SchemaKind) (db : SchemaDB) (k : Int) : SchemaDB :=
  { packages := db.packages.filter (fun p => ¬ p.pkgKey = k),
    tables := (db.packages.filter (fun p => p.pkgKey = k)).foldl
      (fun ts p => run_trigger (schema_trigger kind) p.pkgKey ts) db.tables }

/-! ## Row-write pipelines (db.c lines 439-603, 670-771, 838-885)

Each writer binds its values, steps the reusable prepared statement
and resets it.  The writers return void and take no GError: a failed
step only emits a debug log line.  The `sqlite3_step` outcome is the
explicit `stepOk` oracle; each writer returns the table rows and the
debug log after the call.  `sqlite3_bind_int` receives the gint64
pkgKey through a C `int` parameter, so the stored value is the
argument truncated to signed 32 bits. -/

/-- The value a `sqlite3_bind_int` call stores when handed the 64-bit
integer `v` through its 32-bit parameter: reduction modulo 2^32 into
the signed range. -/
def sqlite3_bind_int_val (v : Int) : Int :=
  (v + 2147483648) % 4294967296 - 2147483648

/-- `Dependency` fields bound by `yum_db_dependency_write` (the struct
lives in a header outside src/; these are exactly the fields db.c
reads). -/
structure Dependency where
  name : String
  flags : String
  epoch : String
  version : String
  release : String
deriving Repr, DecidableEq

/-- A row of one of the four dependency tables, columns in the INSERT
order `(name, flags, epoch, version, release, pkgKey)`. -/
structure DepRow where
  name : String
  flags : String
  epoch : String
  version : String
  release : String
  pkgKey : Int
deriving Repr, DecidableEq

/-- `yum_db_dependency_write` (db.c line 538): bind the five strings
and the pkgKey (via `sqlite3_bind_int`), step, reset; on failure log
and return with the table unchanged. -/
def yum_db_dependency_write (table : List DepRow) (log : List String) (stepOk : Bool)
    (pkgKey : Int) (dep : Dependency) : List DepRow × List String :=
  if stepOk then
    (table ++ [⟨dep.name, dep.flags, dep.epoch, dep.version, dep.release,
               sqlite3_bind_int_val pkgKey⟩], log)
  else (table, log ++ ["Error adding dependency to SQL"])

/-- A row of the primary schema's `files` table, columns in the INSERT
order `(name, type, pkgKey)` of `yum_db_file_prepare`. -/
structure FilesRow where
  name : String
  type : String
  pkgKey : Int
deriving Repr, DecidableEq

/-- `yum_db_file_write` (db.c line 584): parameter 1 (the `name`
column) is bound to `file->type` and parameter 2 (the `type` column)
to `file->name`, exactly as the source binds them; pkgKey goes through
`sqlite3_bind_int`. -/
def yum_db_file_write (table : List FilesRow) (log : List String) (stepOk : Bool)
    (pkgKey : Int) (file : PackageFile) : List FilesRow × List String :=
  if stepOk then
    (table ++ [⟨file.type, file.name, sqlite3_bind_int_val pkgKey⟩], log)
  else (table, log ++ ["Error adding package file to SQL"])

/-- A row of the `filelist` table, columns in the INSERT order
`(pkgKey, dirname, filenames, filetypes)`. -/
structure FilelistRow where
  pkgKey : Int
  dirname : String
  filenames : String
  filetypes : String
deriving Repr, DecidableEq

/-- `write_file` (db.c line 736): one compacted filelist row per
directory group; pkgKey bound through `sqlite3_bind_int`; a failed
step only logs. -/
def write_file (table : List FilelistRow) (log : List String) (stepOk : Bool)
    (pkgKey : Int) (key : String) (enc : EncodedPackageFile) :
    List FilelistRow × List String :=
  if stepOk then
    (table ++ [⟨sqlite3_bind_int_val pkgKey, key, enc.files, enc.types⟩], log)
  else (table, log ++ ["Error adding file to SQL"])

/-- `ChangelogEntry` fields bound by `yum_db_changelog_write`. -/
structure ChangelogEntry where
  author : String
  date : String
  changelog : String
deriving Repr, DecidableEq

/-- A row of the `changelog` table, columns in the INSERT order
`(pkgKey, author, date, changelog)`. -/
structure ChangelogRow where
  pkgKey : Int
  author : String
  date : String
  changelog : String
deriving Repr, DecidableEq

/-- `yum_db_changelog_write` (db.c line 861): iterate the package's
changelog entries, one bind-step-reset per entry; each entry carries
its own `sqlite3_step` outcome; a failed entry only logs and the loop
continues. -/
def yum_db_changelog_write (table : List ChangelogRow) (log : List String) (pkgKey : Int)
    (entries : List (ChangelogEntry × Bool)) : List ChangelogRow × List String :=
  entries.foldl
    (fun acc e =>
      if e.2 then
        (acc.1 ++ [⟨sqlite3_bind_int_val pkgKey, e.1.author, e.1.date, e.1.changelog⟩], acc.2)
      else (acc.1, acc.2 ++ ["Error adding changelog to SQL"]))
    (table, log)

/-- The packages table of the primary schema: rowid (pkgKey, an
INTEGER PRIMARY KEY assigned by the engine) and the 26 bound column
values. -/
def last_insert_rowid (table : List (Int × List String)) : Int :=
  (table.map Prod.fst).foldl max 0 + 1

/-- The `Package` struct fields db.c binds (the struct lives in a
header outside src/; listed are exactly the fields db.c reads). -/
structure Package where
  pkgId : String
  name : String
  arch : String
  version : String
  epoch : String
  release : String
  summary : String
  description : String
  url : String
  time_file : String
  time_build : String
  rpm_license : String
  rpm_vendor : String
  rpm_group : String
  rpm_buildhost : String
  rpm_sourcerpm : String
  rpm_header_start : String
  rpm_header_end : String
  rpm_packager : String
  size_package : String
  size_installed : String
  size_archive : String
  location_href : String
  location_base : String
  checksum_type : String
  checksum_value : String
  pkgKey : Int
deriving Repr, DecidableEq

/-- The 26 text bindings of `yum_db_package_write`, in parameter
order. -/
def package_bind_values (p : Package) : List String :=
  [p.pkgId, p.name, p.arch, p.version, p.epoch, p.release, p.summary, p.description,
   p.url, p.time_file, p.time_build, p.rpm_license, p.rpm_vendor, p.rpm_group,
   p.rpm_buildhost, p.rpm_sourcerpm, p.rpm_header_start, p.rpm_header_end,
   p.rpm_packager, p.size_package, p.size_installed, p.size_archive,
   p.location_href, p.location_base, p.checksum_type, p.checksum_value]

/-- `yum_db_package_write` (db.c line 468): bind the 26 texts, step,
reset; on success the engine-assigned rowid is read back into
`p->pkgKey`; on failure only a log line is emitted and the package is
returned unchanged. -/
def yum_db_package_write (table : List (Int × List String)) (log : List String)
    (stepOk : Bool) (p : Package) :
    List (Int × List String) × List String × Package :=
  if stepOk then
    let rid := last_insert_rowid table
    (table ++ [(rid, package_bind_values p)], log, { p with pkgKey := rid })
  else (table, log ++ ["Error adding package to SQL"], p)

/-! ## Helper lemmas -/

/-- Closed form of the changelog loop: rows whose step succeeded are
appended in order, one log line per failed row. -/
theorem changelog_write_eq (k : Int) (entries : List (ChangelogEntry × Bool)) :
    ∀ table log, yum_db_changelog_write table log k entries =
      (table ++ (entries.filter (fun e => e.2)).map
          (fun e => ⟨sqlite3_bind_int_val k, e.1.author, e.1.date, e.1.changelog⟩),
       log ++ (entries.filter (fun e => !e.2)).map
          (fun _ => "Error adding changelog to SQL")) := by
  induction entries with
  | nil => intro table log; simp [yum_db_changelog_write]
  | cons e es ih =>
    intro table log
    have step : yum_db_changelog_write table log k (e :: es) =
        yum_db_changelog_write
          (if e.2 then table ++ [⟨sqlite3_bind_int_val k, e.1.author, e.1.date, e.1.changelog⟩]
           else table)
          (if e.2 then log else log ++ ["Error adding changelog to SQL"]) k es := by
      cases he : e.2 <;> simp [yum_db_changelog_write, List.foldl_cons, he]
    rw [step]
    cases he : e.2 <;> simp [ih, he]

theorem data_append (s t : String) : (s ++ t).data = s.data ++ t.data := rfl

theorem data_push (s : String) (c : Char) : (s.push c).data = s.data ++ [c] := rfl

theorem data_mk (l : List Char) : (⟨l⟩ : String).data = l := rfl

theorem mk_data (s : String) : (⟨s.data⟩ : String) = s := rfl

theorem dropWhile_pred_false {α : Type} (p : α → Bool) :
    ∀ (l : List α) (c : α) (cs : List α), l.dropWhile p = c :: cs → p c = false := by
  intro l
  induction l with
  | nil => intro c cs h; simp [List.dropWhile] at h
  | cons a l ih =>
    intro c cs h
    rw [List.dropWhile_cons] at h
    by_cases ha : p a = true
    · rw [if_pos ha] at h; exact ih c cs h
    · rw [if_neg ha] at h
      injection h with h1 _
      subst h1
      simpa using ha

theorem splitCharList_no_slash : ∀ l : List Char, ¬ '/' ∈ l → splitCharList l = [l] := by
  intro l
  induction l with
  | nil => intro _; rfl
  | cons c cs ih =>
    intro h
    have hc : ¬ c = '/' := by
      intro e
      apply h
      rw [← e]
      exact List.mem_cons_self c cs
    have hcs : ¬ '/' ∈ cs := fun m => h (List.mem_cons_of_mem c m)
    simp [splitCharList, hc, ih hcs]

theorem splitCharList_slash_append : ∀ l1 l2 : List Char, ¬ '/' ∈ l1 →
    splitCharList (l1 ++ '/' :: l2) = l1 :: splitCharList l2 := by
  intro l1
  induction l1 with
  | nil => intro l2 _; simp [splitCharList]
  | cons c l1 ih =>
    intro l2 h
    have hc : ¬ c = '/' := by
      intro e
      apply h
      rw [← e]
      exact List.mem_cons_self c l1
    have hl1 : ¬ '/' ∈ l1 := fun m => h (List.mem_cons_of_mem c m)
    simp [splitCharList, hc, ih l2 hl1]

theorem str_append_assoc (a b c : String) : a ++ b ++ c = a ++ (b ++ c) :=
  String.ext (by simp [data_append])

theorem joinSlash_append : ∀ (ns : List String) (n : String), ¬ ns = [] →
    joinSlash (ns ++ [n]) = joinSlash ns ++ "/" ++ n := by
  intro ns
  induction ns with
  | nil => intro n h; exact absurd rfl h
  | cons m ms ih =>
    intro n _
    cases ms with
    | nil => rfl
    | cons m2 ms2 =>
      have h2 : ¬ (m2 :: ms2) = ([] : List String) := by simp
      calc joinSlash ((m :: m2 :: ms2) ++ [n])
          = m ++ "/" ++ joinSlash ((m2 :: ms2) ++ [n]) := rfl
        _ = m ++ "/" ++ (joinSlash (m2 :: ms2) ++ "/" ++ n) := by rw [ih n h2]
        _ = (m ++ "/" ++ joinSlash (m2 :: ms2)) ++ "/" ++ n := by
            apply String.ext; simp [data_append]
        _ = joinSlash (m :: m2 :: ms2) ++ "/" ++ n := rfl

theorem joinSlash_ne_empty : ∀ ns : List String, ¬ ns = [] → (∀ n ∈ ns, ¬ n = "") →
    ¬ joinSlash ns = "" := by
  intro ns h0 h1 he
  cases ns with
  | nil => exact h0 rfl
  | cons n ms =>
    cases ms with
    | nil => exact h1 n (by simp) he
    | cons m rest =>
      have hd := congrArg String.data he
      rw [show joinSlash (n :: m :: rest) = n ++ "/" ++ joinSlash (m :: rest) from rfl] at hd
      simp [data_append, show ("/" : String).data = ['/'] from rfl,
        show ("" : String).data = [] from rfl] at hd

theorem splitSlash_joinSlash : ∀ ns : List String, ¬ ns = [] →
    (∀ n ∈ ns, ¬ '/' ∈ n.data) → splitSlash (joinSlash ns) = ns := by
  intro ns
  induction ns with
  | nil => intro h _; exact absurd rfl h
  | cons n ms ih =>
    intro _ h1
    cases ms with
    | nil =>
      have hn : ¬ '/' ∈ n.data := h1 n (by simp)
      show splitSlash (joinSlash [n]) = [n]
      unfold splitSlash
      rw [show (joinSlash [n]).data = n.data from rfl, splitCharList_no_slash n.data hn]
      simp [mk_data]
    | cons m rest =>
      have hn : ¬ '/' ∈ n.data := h1 n (by simp)
      have hrest : ∀ x ∈ m :: rest, ¬ '/' ∈ x.data :=
        fun x hx => h1 x (List.mem_cons_of_mem n hx)
      have hne : ¬ (m :: rest) = ([] : List String) := by simp
      have hd : (joinSlash (n :: m :: rest)).data =
          n.data ++ '/' :: (joinSlash (m :: rest)).data := by
        rw [show joinSlash (n :: m :: rest) = n ++ "/" ++ joinSlash (m :: rest) from rfl]
        simp [data_append, show ("/" : String).data = ['/'] from rfl]
      unfold splitSlash
      rw [hd, splitCharList_slash_append n.data _ hn]
      rw [List.map_cons, mk_data]
      have htail : (splitCharList (joinSlash (m :: rest)).data).map
          (fun l => (⟨l⟩ : String)) = m :: rest := ih hne hrest
      rw [htail]

theorem g_path_get_basename_ne_empty (p : String) : ¬ g_path_get_basename p = "" := by
  unfold g_path_get_basename
  by_cases h0 : p.data = []
  · rw [if_pos h0]; decide
  · rw [if_neg h0]
    by_cases h1 : p.data.reverse.dropWhile (fun c => c = '/') = []
    · rw [if_pos h1]; decide
    · rw [if_neg h1]
      intro he
      have hdata := congrArg String.data he
      rw [data_mk, show ("" : String).data = [] from rfl, List.reverse_eq_nil_iff] at hdata
      obtain ⟨c, cs, hcons⟩ : ∃ c cs, p.data.reverse.dropWhile (fun c => c = '/') = c :: cs := by
        cases hrc : p.data.reverse.dropWhile (fun c => c = '/') with
        | nil => exact absurd hrc h1
        | cons c cs => exact ⟨c, cs, rfl⟩
      have hc := dropWhile_pred_false _ _ c cs hcons
      rw [hcons, List.takeWhile_cons] at hdata
      simp at hc
      simp [hc] at hdata

theorem g_path_get_basename_no_slash (p : String) (h : ¬ g_path_get_basename p = "/") :
    ¬ '/' ∈ (g_path_get_basename p).data := by
  unfold g_path_get_basename at h ⊢
  by_cases h0 : p.data = []
  · rw [if_pos h0]; decide
  · rw [if_neg h0] at h ⊢
    by_cases h1 : p.data.reverse.dropWhile (fun c => c = '/') = []
    · rw [if_pos h1] at h; exact absurd rfl h
    · rw [if_neg h1]
      intro hm
      rw [data_mk, List.mem_reverse] at hm
      have := List.mem_takeWhile_imp hm
      simp at this

/-- The input entries assigned to dirname `d` by standard path
splitting, in input order (the spec-side grouping the codec must
realize). -/
def group_list (files : List PackageFile) (d : String) : List PackageFile :=
  files.filter (fun f => g_path_get_dirname f.name = d)

/-- The basenames assigned to dirname `d`, in input order. -/
def group_names (files : List PackageFile) (d : String) : List String :=
  (group_list files d).map (fun f => g_path_get_basename f.name)

/-- The type codes assigned to dirname `d`, in input order (entries
with an unrecognized type string contribute nothing, as in the C). -/
def group_chars (files : List PackageFile) (d : String) : List Char :=
  (group_list files d).filterMap (fun f => typeChar f.type)

theorem group_list_append_eq (files : List PackageFile) (f : PackageFile) (d : String)
    (hd : g_path_get_dirname f.name = d) :
    group_list (files ++ [f]) d = group_list files d ++ [f] := by
  simp [group_list, List.filter_append, hd]

theorem group_list_append_ne (files : List PackageFile) (f : PackageFile) (d : String)
    (hd : ¬ g_path_get_dirname f.name = d) :
    group_list (files ++ [f]) d = group_list files d := by
  simp [group_list, List.filter_append, hd]

theorem group_names_append_eq (files : List PackageFile) (f : PackageFile) (d : String)
    (hd : g_path_get_dirname f.name = d) :
    group_names (files ++ [f]) d = group_names files d ++ [g_path_get_basename f.name] := by
  simp [group_names, group_list_append_eq files f d hd]

theorem group_names_append_ne (files : List PackageFile) (f : PackageFile) (d : String)
    (hd : ¬ g_path_get_dirname f.name = d) :
    group_names (files ++ [f]) d = group_names files d := by
  simp [group_names, group_list_append_ne files f d hd]

theorem group_chars_append_eq (files : List PackageFile) (f : PackageFile) (d : String)
    (hd : g_path_get_dirname f.name = d) :
    group_chars (files ++ [f]) d = group_chars files d ++ (typeChar f.type).toList := by
  rw [group_chars, group_list_append_eq files f d hd, List.filterMap_append]
  cases ht : typeChar f.type <;> simp [group_chars, ht]

theorem group_chars_append_ne (files : List PackageFile) (f : PackageFile) (d : String)
    (hd : ¬ g_path_get_dirname f.name = d) :
    group_chars (files ++ [f]) d = group_chars files d := by
  simp [group_chars, group_list_append_ne files f d hd]

theorem group_names_members_ne_empty (files : List PackageFile) (d : String) :
    ∀ n ∈ group_names files d, ¬ n = "" := by
  intro n hn
  simp only [group_names] at hn
  rcases List.mem_map.mp hn with ⟨f, _, hfn⟩
  rw [← hfn]
  exact g_path_get_basename_ne_empty f.name

theorem group_names_members_no_slash (files : List PackageFile) (d : String)
    (H2 : ∀ f ∈ files, ¬ g_path_get_basename f.name = "/") :
    ∀ n ∈ group_names files d, ¬ '/' ∈ n.data := by
  intro n hn
  simp only [group_names, group_list] at hn
  rcases List.mem_map.mp hn with ⟨f, hf, hfn⟩
  rw [← hfn]
  exact g_path_get_basename_no_slash f.name (H2 f (List.mem_of_mem_filter hf))

theorem assocFind_none_not_mem : ∀ (h : List (String × EncodedPackageFile)) (d : String),
    assocFind h d = none → ∀ enc, ¬ (d, enc) ∈ h := by
  intro h
  induction h with
  | nil => intro d _ enc hm; exact absurd hm (List.not_mem_nil _)
  | cons e rest ih =>
    obtain ⟨k, v⟩ := e
    intro d hfind enc hm
    by_cases hk : k = d
    · subst hk; simp [assocFind] at hfind
    · rw [show assocFind ((k, v) :: rest) d = assocFind rest d from by
        simp [assocFind, hk]] at hfind
      rcases List.mem_cons.mp hm with he | hm2
      · injection he with he1 _
        exact hk he1.symm
      · exact ih d hfind enc hm2

theorem assocFind_some_mem : ∀ (h : List (String × EncodedPackageFile)) (d : String)
    (enc : EncodedPackageFile), assocFind h d = some enc → (d, enc) ∈ h := by
  intro h
  induction h with
  | nil => intro d enc hfind; simp [assocFind] at hfind
  | cons e rest ih =>
    obtain ⟨k, v⟩ := e
    intro d enc hfind
    by_cases hk : k = d
    · subst hk
      rw [show assocFind ((k, v) :: rest) k = some v from by simp [assocFind]] at hfind
      injection hfind with hv
      rw [← hv]
      exact List.mem_cons_self _ _
    · rw [show assocFind ((k, v) :: rest) d = assocFind rest d from by
        simp [assocFind, hk]] at hfind
      exact List.mem_cons_of_mem _ (ih d enc hfind)

theorem assocReplace_keys : ∀ (h : List (String × EncodedPackageFile)) (d : String)
    (enc : EncodedPackageFile), (assocReplace h d enc).map Prod.fst = h.map Prod.fst := by
  intro h
  induction h with
  | nil => intro d enc; rfl
  | cons e rest ih =>
    obtain ⟨k, v⟩ := e
    intro d enc
    by_cases hk : k = d
    · subst hk; simp [assocReplace]
    · simp [assocReplace, hk, ih d enc]

theorem mem_assocReplace : ∀ (h : List (String × EncodedPackageFile)) (d : String)
    (encNew : EncodedPackageFile), (h.map Prod.fst).Nodup → ∀ (d2 : String)
    (enc2 : EncodedPackageFile),
    ((d2, enc2) ∈ assocReplace h d encNew ↔
      (d2 = d ∧ enc2 = encNew ∧ d ∈ h.map Prod.fst) ∨ ((d2, enc2) ∈ h ∧ ¬ d2 = d)) := by
  intro h
  induction h with
  | nil =>
    intro d encNew _ d2 enc2
    simp [assocReplace]
  | cons e rest ih =>
    obtain ⟨k, v⟩ := e
    intro d encNew hnd d2 enc2
    have hnd' := List.nodup_cons.mp (show (k :: rest.map Prod.fst).Nodup from hnd)
    have hnd1 : ¬ k ∈ rest.map Prod.fst := hnd'.1
    have hnd2 : (rest.map Prod.fst).Nodup := hnd'.2
    by_cases hk : k = d
    · subst hk
      rw [show assocReplace ((k, v) :: rest) k encNew = (k, encNew) :: rest from by
        simp [assocReplace]]
      constructor
      · intro hm
        rcases List.mem_cons.mp hm with he | hm2
        · injection he with he1 he2
          exact Or.inl ⟨he1, he2, by simp⟩
        · have hne : ¬ d2 = k := by
            intro he2
            subst he2
            exact hnd1 (List.mem_map.mpr ⟨(d2, enc2), hm2, rfl⟩)
          exact Or.inr ⟨List.mem_cons_of_mem _ hm2, hne⟩
      · intro hm
        rcases hm with ⟨he1, he2, _⟩ | ⟨hm2, hne⟩
        · subst he1; subst he2; exact List.mem_cons_self _ _
        · rcases List.mem_cons.mp hm2 with he | hm3
          · injection he with he1 _
            exact absurd he1 hne
          · exact List.mem_cons_of_mem _ hm3
    · rw [show assocReplace ((k, v) :: rest) d encNew = (k, v) :: assocReplace rest d encNew from by
        simp [assocReplace, hk]]
      constructor
      · intro hm
        rcases List.mem_cons.mp hm with he | hm2
        · injection he with he1 he2
          refine Or.inr ⟨?_, ?_⟩
          · rw [he1, he2]; exact List.mem_cons_self _ _
          · rw [he1]; exact hk
        · rcases (ih d encNew hnd2 d2 enc2).mp hm2 with ⟨he1, he2, hkey⟩ | ⟨hm3, hne⟩
          · exact Or.inl ⟨he1, he2, by simp [hkey]⟩
          · exact Or.inr ⟨List.mem_cons_of_mem _ hm3, hne⟩
      · intro hm
        rcases hm with ⟨he1, he2, hkey⟩ | ⟨hm2, hne⟩
        · have hkey2 : d ∈ rest.map Prod.fst := by
            rcases List.mem_cons.mp (show d ∈ k :: rest.map Prod.fst from hkey) with he | hm3
            · exact absurd he.symm hk
            · exact hm3
          exact List.mem_cons_of_mem _ ((ih d encNew hnd2 d2 enc2).mpr (Or.inl ⟨he1, he2, hkey2⟩))
        · rcases List.mem_cons.mp hm2 with he | hm3
          · rw [he]; exact List.mem_cons_self _ _
          · exact List.mem_cons_of_mem _ ((ih d encNew hnd2 d2 enc2).mpr (Or.inr ⟨hm3, hne⟩))

theorem enc_append_types_data (enc : EncodedPackageFile) (name t : String) :
    (enc_append enc name t).types.data = enc.types.data ++ (typeChar t).toList := by
  cases ht : typeChar t <;> simp [enc_append, ht, data_push]

theorem enc_append_files_of_empty (enc : EncodedPackageFile) (name t : String)
    (h : enc.files = "") : (enc_append enc name t).files = name := by
  simp [enc_append, h]

theorem enc_append_files_of_ne (enc : EncodedPackageFile) (name t : String)
    (h : ¬ enc.files = "") : (enc_append enc name t).files = enc.files ++ "/" ++ name := by
  have hl : enc.files.length ≠ 0 := by
    intro h0
    apply h
    apply String.ext
    show enc.files.data = []
    have hlen : enc.files.data.length = 0 := h0
    exact List.length_eq_zero.mp hlen
  simp [enc_append, hl]

/-- The induction invariant tying the accumulator hash to the prefix of
the input already processed: keys are distinct; each group's buffers
are the join of its basenames and the concatenation of its type codes;
each group is non-empty; and every processed entry's dirname has a
group. -/
def HashInv (files : List PackageFile) (h : List (String × EncodedPackageFile)) : Prop :=
  (h.map Prod.fst).Nodup ∧
  (∀ d enc, (d, enc) ∈ h →
    enc.files = joinSlash (group_names files d) ∧
    enc.types.data = group_chars files d ∧
    ¬ group_names files d = []) ∧
  (∀ f ∈ files, ∃ enc, (g_path_get_dirname f.name, enc) ∈ h)

theorem group_names_nil_of_find_none (files : List PackageFile)
    (h : List (String × EncodedPackageFile)) (d : String)
    (inv3 : ∀ f ∈ files, ∃ enc, (g_path_get_dirname f.name, enc) ∈ h)
    (hfind : assocFind h d = none) : group_names files d = [] := by
  by_contra hne
  have hgl : ¬ group_list files d = [] := by
    intro hnil; apply hne; simp [group_names, hnil]
  obtain ⟨f, hf⟩ := List.exists_mem_of_ne_nil _ hgl
  simp only [group_list] at hf
  have hmemf : f ∈ files := List.mem_of_mem_filter hf
  have hdf : g_path_get_dirname f.name = d := by
    have := List.mem_filter.mp hf
    simpa using this.2
  obtain ⟨enc, henc⟩ := inv3 f hmemf
  rw [hdf] at henc
  exact assocFind_none_not_mem h d hfind enc henc

theorem hash_inv_step (files : List PackageFile) (f : PackageFile)
    (h : List (String × EncodedPackageFile)) (inv : HashInv files h) :
    HashInv (files ++ [f]) (files_to_hash_step h f) := by
  obtain ⟨inv1, inv2, inv3⟩ := inv
  unfold files_to_hash_step
  cases hfind : assocFind h (g_path_get_dirname f.name) with
  | none =>
    have hng : group_names files (g_path_get_dirname f.name) = [] :=
      group_names_nil_of_find_none files h _ inv3 hfind
    have hgl : group_list files (g_path_get_dirname f.name) = [] := by
      have := hng
      simpa [group_names, List.map_eq_nil_iff] using this
    have hgc : group_chars files (g_path_get_dirname f.name) = [] := by
      simp [group_chars, hgl]
    have hnotmem : ∀ enc, ¬ (g_path_get_dirname f.name, enc) ∈ h :=
      assocFind_none_not_mem h _ hfind
    have hnotkey : ¬ g_path_get_dirname f.name ∈ h.map Prod.fst := by
      intro hk
      rcases List.mem_map.mp hk with ⟨⟨d0, e0⟩, hmem, hfst⟩
      have hd0 : d0 = g_path_get_dirname f.name := hfst
      rw [hd0] at hmem
      exact hnotmem e0 hmem
    refine ⟨?_, ?_, ?_⟩
    · simp [List.map_append, List.nodup_append, inv1, List.disjoint_singleton, hnotkey]
    · intro d2 enc2 hmem
      rcases List.mem_append.mp hmem with hold | hnew
      · have hne : ¬ d2 = g_path_get_dirname f.name := by
          intro he; subst he; exact hnotmem enc2 hold
        have hdother : ¬ g_path_get_dirname f.name = d2 := fun e => hne e.symm
        obtain ⟨e1, e2, e3⟩ := inv2 d2 enc2 hold
        rw [group_names_append_ne files f d2 hdother, group_chars_append_ne files f d2 hdother]
        exact ⟨e1, e2, e3⟩
      · have hp := List.mem_singleton.mp hnew
        injection hp with hp1 hp2
        subst hp1; subst hp2
        rw [group_names_append_eq files f _ rfl, group_chars_append_eq files f _ rfl, hng, hgc]
        refine ⟨?_, ?_, by simp⟩
        · rw [enc_append_files_of_empty _ _ _ rfl]
          rfl
        · rw [enc_append_types_data]
          simp [encoded_package_file_new]
    · intro g hg
      rcases List.mem_append.mp hg with hold | hnew
      · obtain ⟨enc, henc⟩ := inv3 g hold
        exact ⟨enc, List.mem_append_left _ henc⟩
      · have hgf : g = f := List.mem_singleton.mp hnew
        subst hgf
        exact ⟨_, List.mem_append_right _ (List.mem_singleton.mpr rfl)⟩
  | some enc =>
    have hmem : (g_path_get_dirname f.name, enc) ∈ h := assocFind_some_mem h _ enc hfind
    obtain ⟨e1, e2, e3⟩ := inv2 _ enc hmem
    have hkey : g_path_get_dirname f.name ∈ h.map Prod.fst :=
      List.mem_map.mpr ⟨_, hmem, rfl⟩
    have hfe : ¬ enc.files = "" := by
      rw [e1]
      exact joinSlash_ne_empty _ e3 (group_names_members_ne_empty files _)
    refine ⟨?_, ?_, ?_⟩
    · rw [assocReplace_keys]; exact inv1
    · intro d2 enc2 hmem2
      rcases (mem_assocReplace h _ _ inv1 d2 enc2).mp hmem2 with ⟨hp1, hp2, _⟩ | ⟨hold, hne⟩
      · subst hp1; subst hp2
        rw [group_names_append_eq files f _ rfl, group_chars_append_eq files f _ rfl]
        refine ⟨?_, ?_, by simp⟩
        · rw [enc_append_files_of_ne _ _ _ hfe, e1, joinSlash_append _ _ e3]
        · rw [enc_append_types_data, e2]
      · have hdother : ¬ g_path_get_dirname f.name = d2 := fun e => hne e.symm
        obtain ⟨f1, f2, f3⟩ := inv2 d2 enc2 hold
        rw [group_names_append_ne files f d2 hdother, group_chars_append_ne files f d2 hdother]
        exact ⟨f1, f2, f3⟩
    · intro g hg
      rcases List.mem_append.mp hg with hold | hnew
      · obtain ⟨enc0, henc0⟩ := inv3 g hold
        by_cases hd : g_path_get_dirname g.name = g_path_get_dirname f.name
        · refine ⟨enc_append enc (g_path_get_basename f.name) f.type, ?_⟩
          rw [hd]
          exact (mem_assocReplace h _ _ inv1 _ _).mpr (Or.inl ⟨rfl, rfl, hkey⟩)
        · exact ⟨enc0, (mem_assocReplace h _ _ inv1 _ _).mpr (Or.inr ⟨henc0, hd⟩)⟩
      · have hgf : g = f := List.mem_singleton.mp hnew
        subst hgf
        exact ⟨_, (mem_assocReplace h _ _ inv1 _ _).mpr (Or.inl ⟨rfl, rfl, hkey⟩)⟩

theorem hash_inv_fold : ∀ (rest files : List PackageFile)
    (h : List (String × EncodedPackageFile)), HashInv files h →
    HashInv (files ++ rest) (rest.foldl files_to_hash_step h) := by
  intro rest
  induction rest with
  | nil => intro files h inv; simpa using inv
  | cons f rest ih =>
    intro files h inv
    have step := ih (files ++ [f]) (files_to_hash_step h f) (hash_inv_step files f h inv)
    rw [List.foldl_cons]
    have harr : files ++ [f] ++ rest = files ++ f :: rest := by simp
    rw [harr] at step
    exact step

theorem hash_inv_main (files : List PackageFile) :
    HashInv files (package_files_to_hash files) := by
  have base : HashInv [] [] := ⟨by simp, by simp, by simp⟩
  have := hash_inv_fold files [] [] base
  simpa [package_files_to_hash] using this

theorem zip_names_chars : ∀ l : List PackageFile,
    (∀ f ∈ l, (typeChar f.type).isSome = true) →
    (l.map (fun f => g_path_get_basename f.name)).zip (l.filterMap (fun f => typeChar f.type)) =
      l.filterMap (fun f => (typeChar f.type).map (fun c => (g_path_get_basename f.name, c))) := by
  intro l
  induction l with
  | nil => intro _; rfl
  | cons f l ih =>
    intro H
    obtain ⟨c, hc⟩ := Option.isSome_iff_exists.mp (H f (List.mem_cons_self f l))
    have ihl := ih (fun g hg => H g (List.mem_cons_of_mem f hg))
    simp [hc, ihl]

theorem mem_tableRows_delete_rows (ts : List (String × List Row)) (t0 t : String)
    (k : Int) (r : Row) :
    r ∈ tableRows (delete_rows ts t0 k) t ↔
      r ∈ tableRows ts t ∧ (t = t0 → ¬ r.pkgKey = k) := by
  induction ts with
  | nil => simp [delete_rows, tableRows]
  | cons e rest ih =>
    obtain ⟨n, rows⟩ := e
    by_cases hn : n = t
    · subst hn
      by_cases ht : n = t0
      · subst ht
        simp [delete_rows, tableRows, List.mem_filter]
      · simp [delete_rows, tableRows, ht]
    · simp [delete_rows, tableRows, hn, ih]

theorem mem_tableRows_cascade_fold (l : List String) (k : Int) (r : Row) :
    ∀ ts t, r ∈ tableRows (l.foldl (fun ts t => delete_rows ts t k) ts) t ↔
      r ∈ tableRows ts t ∧ (t ∈ l → ¬ r.pkgKey = k) := by
  induction l with
  | nil => intro ts t; simp
  | cons t0 l ih =>
    intro ts t
    rw [List.foldl_cons, ih, mem_tableRows_delete_rows]
    constructor
    · rintro ⟨⟨hm, h1⟩, h2⟩
      refine ⟨hm, ?_⟩
      intro hmem
      rcases List.mem_cons.mp hmem with h | h
      · exact h1 h
      · exact h2 h
    · rintro ⟨hm, h⟩
      exact ⟨⟨hm, fun ht => h (ht ▸ List.mem_cons_self t0 l)⟩,
             fun hl => h (List.mem_cons_of_mem t0 hl)⟩

theorem mem_tableRows_run_trigger (trg : TriggerDecl) (k : Int) (r : Row)
    (ts : List (String × List Row)) (t : String) :
    r ∈ tableRows (run_trigger trg k ts) t ↔
      r ∈ tableRows ts t ∧ (t ∈ trg.cascadeTargets → ¬ r.pkgKey = k) :=
  mem_tableRows_cascade_fold trg.cascadeTargets k r ts t

theorem mem_tableRows_trigger_fold (trg : TriggerDecl) (k : Int) (r : Row)
    (deleted : List PackageRow) (hk : ∀ p ∈ deleted, p.pkgKey = k) :
    ∀ ts t, r ∈ tableRows (deleted.foldl (fun ts p => run_trigger trg p.pkgKey ts) ts) t ↔
      r ∈ tableRows ts t ∧ (¬ deleted = [] → t ∈ trg.cascadeTargets → ¬ r.pkgKey = k) := by
  induction deleted with
  | nil => intro ts t; simp
  | cons p l ih =>
    intro ts t
    have hp : p.pkgKey = k := hk p (List.mem_cons_self p l)
    have hl : ∀ q ∈ l, q.pkgKey = k := fun q hq => hk q (List.mem_cons_of_mem p hq)
    rw [List.foldl_cons, ih hl, mem_tableRows_run_trigger, hp]
    constructor
    · rintro ⟨⟨hm, h1⟩, _⟩
      exact ⟨hm, fun _ => h1⟩
    · rintro ⟨hm, h⟩
      have h' := h (by simp)
      exact ⟨⟨hm, h'⟩, fun _ => h'⟩

/-! ## Claim theorems -/

/-- C1 (code bug evidence): on a version mismatch `yum_db_open` does
not delete and recreate the file.  At a concrete existing cache file
whose stored dbversion is 8 while the compiled constant is
`YUM_SQLITE_CACHE_DBVERSION`, the call leaves the file on disk
unchanged, never invokes the caller's `create_tables`, and returns
NULL with the error from the failing `CREATE TABLE db_info` — not a
fresh schema-free file with a writable handle and no error as the
claim states. -/
theorem yum_db_open_version_mismatch_errors :
    yum_db_open
      ⟨true, false, ⟨true, [⟨8, "abc"⟩], some SchemaKind.primary,
        [("files", [⟨1, ["x"]⟩])], false⟩⟩
      "abc" SchemaKind.primary =
    ⟨OpenResult.failure "Can not create db_info table",
     ⟨true, false, ⟨true, [⟨8, "abc"⟩], some SchemaKind.primary,
       [("files", [⟨1, ["x"]⟩])], false⟩⟩, false⟩ := by decide

/-- C2 (code bug evidence): `package_files_to_hash` does not keep the
positional-alignment invariant for a file whose type string is none of
"dir"/"file"/"ghost": at the concrete input `[("/a/b", "symlink")]`
the basename is appended to `filenames` while nothing is appended to
`filetypes`, so the group has one '/'-delimited basename but zero type
codes. -/
theorem codec_unknown_type_misaligns :
    package_files_to_hash [⟨"/a/b", "symlink"⟩] = [("/a", ⟨"b", ""⟩)] ∧
    typeChar "symlink" = none ∧
    ¬ (splitSlash "b").length = ("" : String).length := by decide

/-- C3 (counterexample): `yum_db_dbinfo_update` issues no DELETE, so a
single finalize on a `db_info` table already holding a row leaves two
rows, not exactly one. -/
theorem dbinfo_update_appends_counterexample :
    (yum_db_dbinfo_update ⟨true, [⟨9, "old"⟩], none, [], false⟩ "new").1.db_info =
      [⟨9, "old"⟩, ⟨9, "new"⟩] ∧
    ¬ (yum_db_dbinfo_update ⟨true, [⟨9, "old"⟩], none, [], false⟩ "new").1.db_info.length = 1 := by
  decide

/-- C3 (amended): finalize only appends the single new
`{YUM_SQLITE_CACHE_DBVERSION, checksum}` row without error; the table
holds exactly that one row afterwards precisely when it was empty
before the call, which `yum_db_open`'s rebuild paths guarantee (fresh
creation, or the checksum-mismatch branch clearing `db_info`). -/
theorem dbinfo_update_insert_only (f : CacheFile) (cs : String)
    (h1 : f.hasDbinfo = true) :
    (yum_db_dbinfo_update f cs).1.db_info =
      f.db_info ++ [⟨YUM_SQLITE_CACHE_DBVERSION, cs⟩] ∧
    (yum_db_dbinfo_update f cs).2 = none ∧
    (f.db_info = [] →
      (yum_db_dbinfo_update f cs).1.db_info = [⟨YUM_SQLITE_CACHE_DBVERSION, cs⟩]) := by
  refine ⟨by simp [yum_db_dbinfo_update, h1], by simp [yum_db_dbinfo_update, h1], ?_⟩
  intro h
  simp [yum_db_dbinfo_update, h1, h]

/-- Witness for the amended C3 at a concrete cache file. -/
theorem dbinfo_update_insert_only_witness :
    (CacheFile.mk true [] none [] false).hasDbinfo = true ∧
    ((yum_db_dbinfo_update (CacheFile.mk true [] none [] false) "c").1.db_info =
        (CacheFile.mk true [] none [] false).db_info ++
          [⟨YUM_SQLITE_CACHE_DBVERSION, "c"⟩] ∧
      (yum_db_dbinfo_update (CacheFile.mk true [] none [] false) "c").2 = none ∧
      ((CacheFile.mk true [] none [] false).db_info = [] →
        (yum_db_dbinfo_update (CacheFile.mk true [] none [] false) "c").1.db_info =
          [⟨YUM_SQLITE_CACHE_DBVERSION, "c"⟩])) :=
  ⟨rfl, dbinfo_update_insert_only (CacheFile.mk true [] none [] false) "c" rfl⟩

/-- C4 (counterexample): the round-trip law fails as stated.  At the
concrete input `[("/a/b", "symlink"), ("/a/c", "file")]` the codec
produces the single group `("/a", "b/c", "f")`; splitting and zipping
decodes to `[("b", 'f')]`, pairing basename "b" with the type code of
"c" and losing the pair `("c", 'f')` that standard path splitting
assigns to "/a". -/
theorem codec_roundtrip_counterexample :
    package_files_to_hash [⟨"/a/b", "symlink"⟩, ⟨"/a/c", "file"⟩] =
      [("/a", ⟨"b/c", "f"⟩)] ∧
    (splitSlash "b/c").zip ("f" : String).data = [("b", 'f')] ∧
    ¬ (splitSlash "b/c").zip ("f" : String).data =
        (group_list [⟨"/a/b", "symlink"⟩, ⟨"/a/c", "file"⟩] "/a").filterMap
          (fun f => (typeChar f.type).map (fun c => (g_path_get_basename f.name, c))) ∧
    (⟨"/a/c", "file"⟩ : PackageFile) ∈
        group_list [⟨"/a/b", "symlink"⟩, ⟨"/a/c", "file"⟩] "/a" ∧
    ¬ ("c", 'f') ∈ (splitSlash "b/c").zip ("f" : String).data := by decide

/-- C4 (amended): the round-trip law holds for every input whose
entries all carry a recognized type string ("dir"/"file"/"ghost") and
whose paths have non-root basenames: splitting each produced group's
filenames on '/' and zipping position-wise with the filetypes
characters reconstructs exactly, in input order, the (basename, type
code) pairs standard path splitting assigns to that group's dirname —
including the empty input (no groups) and single-entry groups — and
every input entry's dirname owns a group. -/
theorem codec_roundtrip_amended (files : List PackageFile)
    (H1 : ∀ f ∈ files, (typeChar f.type).isSome = true)
    (H2 : ∀ f ∈ files, ¬ g_path_get_basename f.name = "/") :
    (∀ d enc, (d, enc) ∈ package_files_to_hash files →
      (splitSlash enc.files).zip enc.types.data =
        (group_list files d).filterMap
          (fun f => (typeChar f.type).map (fun c => (g_path_get_basename f.name, c)))) ∧
    (∀ f ∈ files, ∃ enc, (g_path_get_dirname f.name, enc) ∈ package_files_to_hash files) := by
  obtain ⟨inv1, inv2, inv3⟩ := hash_inv_main files
  refine ⟨?_, inv3⟩
  intro d enc hmem
  obtain ⟨e1, e2, e3⟩ := inv2 d enc hmem
  have hsplit : splitSlash enc.files = group_names files d := by
    rw [e1]
    exact splitSlash_joinSlash _ e3 (group_names_members_no_slash files d H2)
  rw [hsplit, e2]
  have Hgrp : ∀ f ∈ group_list files d, (typeChar f.type).isSome = true := by
    intro f hf
    simp only [group_list] at hf
    exact H1 f (List.mem_of_mem_filter hf)
  exact zip_names_chars (group_list files d) Hgrp

/-- The spec's worked codec example, input for the C4 witness. -/
def sampleFiles : List PackageFile :=
  [⟨"/a/b.txt", "file"⟩, ⟨"/a/c.txt", "file"⟩, ⟨"/a", "dir"⟩]

/-- Witness for the amended C4 at the spec's worked example. -/
theorem codec_roundtrip_amended_witness :
    (∀ f ∈ sampleFiles, (typeChar f.type).isSome = true) ∧
    (∀ f ∈ sampleFiles, ¬ g_path_get_basename f.name = "/") ∧
    (splitSlash (⟨"b.txt/c.txt", "ff"⟩ : EncodedPackageFile).files).zip
        (⟨"b.txt/c.txt", "ff"⟩ : EncodedPackageFile).types.data =
      (group_list sampleFiles "/a").filterMap
        (fun f => (typeChar f.type).map (fun c => (g_path_get_basename f.name, c))) :=
  ⟨by decide, by decide,
   (codec_roundtrip_amended sampleFiles (by decide) (by decide)).1 "/a"
     ⟨"b.txt/c.txt", "ff"⟩ (by decide)⟩

/-- C5: a stamp written by finalize is honoured by the next open: from
any post-rebuild file (the `db_info` table exists and was left empty
by open), finalizing with a checksum and reopening with that same
checksum and the same compiled constant reports Current — NULL handle,
no error, `create_tables` not invoked, disk untouched. -/
theorem open_after_update_reports_current (f : CacheFile) (cs : String) (kind : SchemaKind)
    (h1 : f.hasDbinfo = true) (h2 : f.db_info = []) :
    yum_db_open ⟨true, false, (yum_db_dbinfo_update f cs).1⟩ cs kind =
      ⟨OpenResult.current, ⟨true, false, (yum_db_dbinfo_update f cs).1⟩, false⟩ := by
  simp [yum_db_dbinfo_update, yum_db_open, dbinfo_status, h1, h2]

/-- Witness for C5 at a concrete cache file. -/
theorem open_after_update_reports_current_witness :
    (CacheFile.mk true [] (some SchemaKind.primary) [] false).hasDbinfo = true ∧
    (CacheFile.mk true [] (some SchemaKind.primary) [] false).db_info = [] ∧
    yum_db_open
        ⟨true, false,
         (yum_db_dbinfo_update (CacheFile.mk true [] (some SchemaKind.primary) [] false)
            "sum").1⟩ "sum" SchemaKind.primary =
      ⟨OpenResult.current,
       ⟨true, false,
        (yum_db_dbinfo_update (CacheFile.mk true [] (some SchemaKind.primary) [] false)
           "sum").1⟩, false⟩ :=
  ⟨rfl, rfl,
   open_after_update_reports_current (CacheFile.mk true [] (some SchemaKind.primary) [] false)
     "sum" SchemaKind.primary rfl rfl⟩

/-- C6: when the stored version matches the compiled constant but the
stored checksum differs from the expected one, `yum_db_open` returns a
writable handle on the file with only the `db_info` rows cleared (and
syncing relaxed); the schema objects and every other table's rows are
untouched and `create_tables` is not invoked. -/
theorem open_checksum_mismatch_frame (f : CacheFile) (cs : String) (kind : SchemaKind)
    (row : DBInfoRow) (rest : List DBInfoRow)
    (h1 : f.hasDbinfo = true) (h2 : f.db_info = row :: rest)
    (h3 : row.dbversion = YUM_SQLITE_CACHE_DBVERSION) (h4 : ¬ cs = row.checksum) :
    yum_db_open ⟨true, false, f⟩ cs kind =
      ⟨OpenResult.handle { f with db_info := [], syncOff := true },
       ⟨true, false, { f with db_info := [], syncOff := true }⟩, false⟩ ∧
    ({ f with db_info := [], syncOff := true } : CacheFile).schema = f.schema ∧
    ({ f with db_info := [], syncOff := true } : CacheFile).tables = f.tables ∧
    ({ f with db_info := [], syncOff := true } : CacheFile).hasDbinfo = f.hasDbinfo := by
  refine ⟨?_, rfl, rfl, rfl⟩
  simp [yum_db_open, dbinfo_status, h1, h2, h3, h4]

/-- Witness for C6 at a concrete cache file. -/
theorem open_checksum_mismatch_frame_witness :
    (CacheFile.mk true [⟨YUM_SQLITE_CACHE_DBVERSION, "old"⟩] (some SchemaKind.primary)
        [("files", [⟨1, ["x"]⟩])] false).hasDbinfo = true ∧
    yum_db_open
        ⟨true, false,
         CacheFile.mk true [⟨YUM_SQLITE_CACHE_DBVERSION, "old"⟩] (some SchemaKind.primary)
           [("files", [⟨1, ["x"]⟩])] false⟩ "new" SchemaKind.primary =
      ⟨OpenResult.handle
         (CacheFile.mk true [] (some SchemaKind.primary) [("files", [⟨1, ["x"]⟩])] true),
       ⟨true, false,
        CacheFile.mk true [] (some SchemaKind.primary) [("files", [⟨1, ["x"]⟩])] true⟩,
       false⟩ :=
  ⟨rfl,
   (open_checksum_mismatch_frame
      (CacheFile.mk true [⟨YUM_SQLITE_CACHE_DBVERSION, "old"⟩] (some SchemaKind.primary)
        [("files", [⟨1, ["x"]⟩])] false)
      "new" SchemaKind.primary ⟨YUM_SQLITE_CACHE_DBVERSION, "old"⟩ []
      rfl rfl rfl (by decide)).1⟩

/-- C7: for every schema kind, deleting a stored package row removes,
via the kind's declared AFTER DELETE trigger, every row of every
dependent table carrying the deleted pkgKey, and removes no row (of
any table) carrying a different pkgKey. -/
theorem delete_package_cascades (kind : SchemaKind) (db : SchemaDB) (k : Int)
    (h : ∃ p ∈ db.packages, p.pkgKey = k) :
    (∀ p ∈ (delete_package kind db k).packages, ¬ p.pkgKey = k) ∧
    (∀ t ∈ dependent_tables kind, ∀ r : Row,
        r ∈ tableRows (delete_package kind db k).tables t → ¬ r.pkgKey = k) ∧
    (∀ (t : String) (r : Row), ¬ r.pkgKey = k →
        (r ∈ tableRows (delete_package kind db k).tables t ↔ r ∈ tableRows db.tables t)) := by
  obtain ⟨p0, hp0, hk0⟩ := h
  have hdel : ¬ (db.packages.filter (fun p => p.pkgKey = k)) = [] := by
    intro hnil
    have hmem : p0 ∈ db.packages.filter (fun p => p.pkgKey = k) := by
      simp [List.mem_filter, hp0, hk0]
    rw [hnil] at hmem
    exact absurd hmem (List.not_mem_nil p0)
  have hkall : ∀ p ∈ db.packages.filter (fun p => p.pkgKey = k), p.pkgKey = k := by
    intro p hp
    simpa using (List.mem_filter.mp hp).2
  have htars : dependent_tables kind = (schema_trigger kind).cascadeTargets := by
    cases kind <;> rfl
  refine ⟨?_, ?_, ?_⟩
  · intro p hp
    simpa using (List.mem_filter.mp hp).2
  · intro t ht r hr
    have hiff := (mem_tableRows_trigger_fold (schema_trigger kind) k r _ hkall db.tables t).mp hr
    exact hiff.2 hdel (htars ▸ ht)
  · intro t r hrk
    constructor
    · intro hr
      exact ((mem_tableRows_trigger_fold (schema_trigger kind) k r _ hkall db.tables t).mp hr).1
    · intro hr
      exact (mem_tableRows_trigger_fold (schema_trigger kind) k r _ hkall db.tables t).mpr
        ⟨hr, fun _ _ => hrk⟩

/-- Concrete two-package primary-kind content for the C7 witness. -/
def sampleSchemaDB : SchemaDB :=
  ⟨[⟨1, ["p1"]⟩, ⟨2, ["p2"]⟩],
   [("files", [⟨1, ["a"]⟩, ⟨2, ["b"]⟩]), ("requires", [⟨1, ["r"]⟩])]⟩

/-- Witness for C7: deleting pkgKey 1 removes its files row. -/
theorem delete_package_cascades_witness :
    (∃ p ∈ sampleSchemaDB.packages, p.pkgKey = 1) ∧
    ¬ (⟨1, ["a"]⟩ : Row) ∈ tableRows (delete_package SchemaKind.primary sampleSchemaDB 1).tables
        "files" :=
  ⟨by decide,
   fun hmem =>
     (delete_package_cascades SchemaKind.primary sampleSchemaDB 1 (by decide)).2.1
       "files" (by decide) ⟨1, ["a"]⟩ hmem rfl⟩

/-- C8: a failed single-row write is non-fatal for every writer: the
row is dropped, one log line is emitted, the function (which has no
error out-parameter) returns normally, and the changelog loop — the
in-source pipeline — keeps writing the remaining rows after a
failure. -/
theorem row_write_failure_non_fatal :
    (∀ table log p, yum_db_package_write table log false p =
        (table, log ++ ["Error adding package to SQL"], p)) ∧
    (∀ table log k d, yum_db_dependency_write table log false k d =
        (table, log ++ ["Error adding dependency to SQL"])) ∧
    (∀ table log k file, yum_db_file_write table log false k file =
        (table, log ++ ["Error adding package file to SQL"])) ∧
    (∀ table log k key enc, write_file table log false k key enc =
        (table, log ++ ["Error adding file to SQL"])) ∧
    (∀ table log k entries,
        yum_db_changelog_write table log k entries =
          (table ++ (entries.filter (fun e => e.2)).map
              (fun e => ⟨sqlite3_bind_int_val k, e.1.author, e.1.date, e.1.changelog⟩),
           log ++ (entries.filter (fun e => !e.2)).map
              (fun _ => "Error adding changelog to SQL"))) := by
  refine ⟨?_, ?_, ?_, ?_, ?_⟩
  · intro table log p; simp [yum_db_package_write]
  · intro table log k d; simp [yum_db_dependency_write]
  · intro table log k file; simp [yum_db_file_write]
  · intro table log k key enc; simp [write_file]
  · intro table log k entries; exact changelog_write_eq k entries table log

/-- C9: the per-file writer binds the entry's type string into the
`name` column and the entry's path string into the `type` column of
`files(name, type, pkgKey)` — the two values land in each other's
columns. -/
theorem file_write_swaps_columns :
    ∀ (table : List FilesRow) (log : List String) (k : Int) (file : PackageFile),
      ∃ r : FilesRow, (yum_db_file_write table log true k file).1 = table ++ [r] ∧
        r.name = file.type ∧ r.type = file.name :=
  fun table log k file =>
    ⟨⟨file.type, file.name, sqlite3_bind_int_val k⟩, by simp [yum_db_file_write], rfl, rfl⟩

/-- C10: the dependency, per-file and compacted-filelist writers all
pass the 64-bit pkgKey through `sqlite3_bind_int`'s 32-bit parameter,
so the stored pkgKey is the argument reduced modulo 2^32 into the
signed 32-bit range, and it equals the actual pkgKey exactly when that
value fits in signed 32 bits. -/
theorem pkgKey_bind_truncates :
    (∀ table log, ∀ (k : Int) (d : Dependency),
        ((yum_db_dependency_write table log true k d).1).map DepRow.pkgKey =
          table.map DepRow.pkgKey ++ [sqlite3_bind_int_val k]) ∧
    (∀ table log, ∀ (k : Int) (file : PackageFile),
        ((yum_db_file_write table log true k file).1).map FilesRow.pkgKey =
          table.map FilesRow.pkgKey ++ [sqlite3_bind_int_val k]) ∧
    (∀ table log, ∀ (k : Int) (key : String) (enc : EncodedPackageFile),
        ((write_file table log true k key enc).1).map FilelistRow.pkgKey =
          table.map FilelistRow.pkgKey ++ [sqlite3_bind_int_val k]) ∧
    (∀ k : Int, (sqlite3_bind_int_val k - k) % 4294967296 = 0 ∧
        -2147483648 ≤ sqlite3_bind_int_val k ∧ sqlite3_bind_int_val k < 2147483648) ∧
    (∀ k : Int, sqlite3_bind_int_val k = k ↔ -2147483648 ≤ k ∧ k < 2147483648) := by
  refine ⟨?_, ?_, ?_, ?_, ?_⟩
  · intro table log k d; simp [yum_db_dependency_write]
  · intro table log k file; simp [yum_db_file_write]
  · intro table log k key enc; simp [write_file]
  · intro k; unfold sqlite3_bind_int_val; omega
  · intro k; unfold sqlite3_bind_int_val; omega

end YumDB
